import Mathlib

/-!
Verification of the relationship-inference and rendering engine of
`hpp2plantuml` (file `src/hpp2plantuml/hpp2plantuml.py`), against its
natural-language specification.

The Python module is shallowly embedded: each Python function that the
claims touch is translated into an executable Lean definition over an
explicit `Diagram` state.  Strings are modelled by `String` / `List Char`;
the small regular expressions used by the source are translated into
explicit character scanners whose semantics are derived from the regex
they embed (each derivation is documented at the definition).
-/

namespace Hpp2PlantUML

/-! ### Character classes

`isWs` models the Python regex class `\s` on the ASCII range
(space, tab, newline, carriage return, vertical tab, form feed); the
C++ type strings the tool manipulates are ASCII. -/

def isWs (c : Char) : Bool :=
  c = ' ' || c = '\t' || c = '\n' || c = '\r' || c = '\x0b' || c = '\x0c'

/-- The two characters `*` `&` captured by the group in `re.sub(r'[ ]+([*&])', ...)`. -/
def isPtrChar (c : Char) : Bool := c = '*' || c = '&'

/-- The two characters `<` `>` captured by the group in `re.sub('\\s*([<>])\\s*', ...)`. -/
def isBracketChar (c : Char) : Bool := c = '<' || c = '>'

/-- The Python regex word class `\w` on the ASCII range: letters, digits, `_`.
Used by the `\b` word boundaries in `Diagram.build_aggregation_list`. -/
def isWordChar (c : Char) : Bool := c.isAlphanum || c = '_'

/-! ### `_cleanup_type` (the type-string normalizer)

The source is
`re.sub('\\s*([<>])\\s*', r'\\1', re.sub(r'[ ]+([*&])', r'\\1', re.sub(r'(\\s)+', r'\\1', type_str)))`,
three substitutions applied innermost first. -/

/-- Stage 1, `re.sub(r'(\s)+', r'\1', s)`: every maximal run of whitespace
characters is replaced by the last character of the run (the repeated group
`(\s)` retains its final repetition). -/
def collapseWs : List Char → List Char
  | [] => []
  | [c] => [c]
  | c :: d :: rest =>
    if isWs c && isWs d then collapseWs (d :: rest)
    else c :: collapseWs (d :: rest)

/-- Scanner deleting, after every character satisfying `trig`, the following
run of characters satisfying `pred`.  The boolean state records whether the
scanner sits immediately after a `trig` character (with only deleted `pred`
characters in between), i.e. whether `pred` characters must still be dropped.

With `skipping = false` this computes, for disjoint `trig`/`pred`, the result
of deleting every maximal run of `pred`-characters immediately preceded by a
`trig`-character. -/
def dropAfter (trig pred : Char → Bool) : Bool → List Char → List Char
  | _, [] => []
  | skipping, c :: rest =>
    if skipping && pred c then dropAfter trig pred true rest
    else if trig c then c :: dropAfter trig pred true rest
    else c :: dropAfter trig pred false rest

/-- Stage 2, `re.sub(r'[ ]+([*&])', r'\1', s)`: every maximal run of space
characters immediately followed by `*` or `&` is deleted.  Equivalently, on
the reversed string, every run of spaces immediately preceded by `*` or `&`
is deleted, which is what `dropAfter` computes. -/
def stripSpaceBeforePtr (l : List Char) : List Char :=
  (dropAfter isPtrChar (fun c => c = ' ') false l.reverse).reverse

/-- Stage 3, `re.sub('\s*([<>])\s*', r'\1', s)`: a whitespace character is
deleted exactly when its maximal whitespace run touches a `<` or `>` on
either side (the leading `\s*` of a match consumes the whole run before the
bracket because matching is leftmost, and the trailing `\s*` is greedy, so
runs are never split).  This is computed as two passes of `dropAfter`: first
delete runs following a bracket, then — on the reversed string — delete runs
preceding one. -/
def stripWsAroundBrackets (l : List Char) : List Char :=
  (dropAfter isBracketChar isWs false
    (dropAfter isBracketChar isWs false l).reverse).reverse

/-- `_cleanup_type` on character lists: the three substitutions, innermost
(whitespace collapsing) first. -/
def cleanupTypeL (l : List Char) : List Char :=
  stripWsAroundBrackets (stripSpaceBeforePtr (collapseWs l))

/-- `_cleanup_type(type_str)` from the source. -/
def cleanupType (s : String) : String := ⟨cleanupTypeL s.data⟩

/-! ### `_cleanup_single_line` -/

/-- First stage of `_cleanup_single_line`: `re.sub(r'(\r)?\n', ' ', s)` —
every `\r\n` pair and every lone `\n` becomes one space. -/
def newlineToSpace : List Char → List Char
  | [] => []
  | '\r' :: '\n' :: rest => ' ' :: newlineToSpace rest
  | c :: rest => if c = '\n' then ' ' :: newlineToSpace rest else c :: newlineToSpace rest

/-- Second stage of `_cleanup_single_line`: `re.sub(r'\s+', ' ', s)` — every
maximal whitespace run becomes a single space.  The boolean state records
whether the scanner is inside a run whose space was already emitted. -/
def collapseWsToSpace : Bool → List Char → List Char
  | _, [] => []
  | inRun, c :: rest =>
    if isWs c then
      if inRun then collapseWsToSpace true rest
      else ' ' :: collapseWsToSpace true rest
    else c :: collapseWsToSpace false rest

/-- `_cleanup_single_line(input_str)` from the source. -/
def cleanupSingleLine (s : String) : String :=
  ⟨collapseWsToSpace false (newlineToSpace s.data)⟩

/-! ### `_cleanup_namespace` -/

/-- First index `i ≥ start` with `l[i] = c`. -/
def firstCharIdxFrom (l : List Char) (c : Char) (start : Nat) : Option Nat :=
  ((List.range l.length).filter (fun i => decide (start ≤ i ∧ l.get? i = some c))).head?

/-- `re.sub('(.+)<[^>]+>', r'\1', s)`: a leftmost match starts at the scan
position whenever some later `<` is followed (at distance at least two) by a
`>`; the greedy `(.+)` selects the last such `<`, and the greedy `[^>]+`
together with the final `>` end the match at the first `>` after that `<`.
The bracket block is deleted and scanning resumes after it.  The fuel
argument (initialized to the list length, which bounds the number of
matches) makes the recursion structural. -/
def subTemplateGreedy : Nat → List Char → List Char
  | 0, l => l
  | fuel+1, l =>
    let cands := (List.range l.length).filter (fun i =>
      decide (1 ≤ i) && decide (l.get? i = some '<') &&
      (match firstCharIdxFrom l '>' (i+1) with
       | some j => decide (i + 2 ≤ j)
       | none => false))
    match cands.getLast? with
    | none => l
    | some i =>
      match firstCharIdxFrom l '>' (i+1) with
      | none => l
      | some j => l.take i ++ subTemplateGreedy fuel (l.drop (j+1))

def subTemplateDrop (l : List Char) : List Char := subTemplateGreedy l.length l

/-- `re.sub('<([^>]+)>', r'\1', s)`: every `<`…`>` block with a nonempty
`>`-free interior loses its brackets and keeps its interior.  The state is
`some acc` while scanning the potential interior of a block whose `<` has
been read, with `acc` holding the interior seen so far (reversed). -/
def subAngleScan : Option (List Char) → List Char → List Char
  | none, [] => []
  | some acc, [] => '<' :: acc.reverse
  | none, c :: rest =>
    if c = '<' then subAngleScan (some []) rest else c :: subAngleScan none rest
  | some acc, c :: rest =>
    if c = '>' then
      if acc.isEmpty then '<' :: '>' :: subAngleScan none rest
      else acc.reverse ++ subAngleScan none rest
    else subAngleScan (some (c :: acc)) rest

/-- `re.sub(':+$', '', s)`: strip the trailing run of colons. -/
def stripTrailingColons (l : List Char) : List Char :=
  (l.reverse.dropWhile (fun c => c = ':')).reverse

/-- `_cleanup_namespace(ns_str)` from the source: the three substitutions,
innermost first. -/
def cleanupNamespace (s : String) : String :=
  ⟨stripTrailingColons (subAngleScan none (subTemplateDrop s.data))⟩

/-! ### Name cleanup -/

/-- The name normalization of `Container.__init__`:
`re.sub('[<>]', '', re.sub('-', '_', name))`. -/
def cleanName (s : String) : String :=
  ⟨(s.data.map (fun c => if c = '-' then '_' else c)).filter
    (fun c => !(c = '<' || c = '>'))⟩

/-- `re.sub('<.*>', '', s)` (used by `Class.__init__` on base-class names):
the greedy `.*` spans from the first `<` that has some `>` after it to the
last `>` of the string; everything in between is deleted, and no further
match is possible since no `>` remains. -/
def subAngleAll (s : String) : String :=
  let l := s.data
  let gts := (List.range l.length).filter (fun i => decide (l.get? i = some '>'))
  match gts.getLast? with
  | none => s
  | some j =>
    match ((List.range l.length).filter
        (fun i => decide (l.get? i = some '<' ∧ i < j))).head? with
    | none => s
    | some i => ⟨l.take i ++ l.drop (j+1)⟩

/-! ### Regex search primitives

The patterns built at run time by the relationship builders are entity
names (C++ identifiers, possibly `::`-qualified), which contain no regex
metacharacters; `re.search` on them is modelled as literal scanning. -/

/-- Does `l` carry a word character at position `i` (out-of-range positions
count as non-word)? -/
def wordAt (l : List Char) (i : Nat) : Bool :=
  match l.get? i with
  | some c => isWordChar c
  | none => false

/-- Python regex `\b` at position `i` of `s`: exactly one of the two
adjacent positions holds a word character. -/
def boundaryAt (s : List Char) (i : Nat) : Bool :=
  (wordAt s i) != (match i with | 0 => false | j+1 => wordAt s j)

/-- Does the literal pattern `t` occur in `s` starting at position `i`? -/
def matchesAt (t s : List Char) (i : Nat) : Bool :=
  decide ((s.drop i).take t.length = t)

/-- `re.search(r'\b' + t + r'\b', s) is not None` for a metacharacter-free
pattern `t`: some position carries an occurrence of `t` with `\b` word
boundaries on both sides. -/
def reSearchWordBound (t s : List Char) : Bool :=
  (List.range (s.length + 1)).any (fun i =>
    matchesAt t s i && boundaryAt s i && boundaryAt s (i + t.length))

/-- The claims' notion of a whole-word match (glossary: a substring match
bounded by non-identifier characters on both sides; the ends of the string
also count as bounds). -/
def boundedWordOccurs (t s : List Char) : Bool :=
  (List.range (s.length + 1)).any (fun i =>
    matchesAt t s i && (decide (i = 0) || !wordAt s (i - 1)) &&
    (decide (i + t.length = s.length) || !wordAt s (i + t.length)))

/-- `re.search(t, s) is not None` for a metacharacter-free pattern `t`:
plain substring containment. -/
def substrSearch (t s : List Char) : Bool :=
  (List.range (s.length + 1)).any (fun i => matchesAt t s i)

/-- Python `t in s` on strings: substring containment. -/
def containsSub (t s : String) : Bool := substrSearch t.data s.data

/-! ### Entity model

One `Entity` per parsed declaration, mirroring the `Class` and `Enum`
classes of the source.  Every object the `Diagram` stores is one of the
two (`_make_class_list` keeps each object since `isinstance(obj, (Class,
Enum))` always holds). -/

inductive Scope where
  | priv
  | publ
  | prot
deriving DecidableEq, Repr

/-- `MEMBER_PROP_MAP`: visibility markers. -/
def memberPropMap : Scope → String
  | .priv => "-"
  | .publ => "+"
  | .prot => "#"

structure VariableData where
  name : String
  vtype : String
  scope : Scope
  static : Bool
deriving DecidableEq, Repr

structure MethodData where
  name : String
  rtype : String
  scope : Scope
  static : Bool
  abstract : Bool
  props : List String
  params : List (String × String)
deriving DecidableEq, Repr

inductive Member where
  | var (v : VariableData)
  | meth (m : MethodData)
  | enumVal (name : String)
deriving DecidableEq, Repr

/-- `', '.join(' '.join(it).strip() for it in self._param_list)`. -/
def renderParams (params : List (String × String)) : String :=
  String.intercalate ", " (params.map (fun p => (p.1 ++ " " ++ p.2).trim))

/-- `ClassMember.render` / `EnumValue.render`.  A member variable never has
properties (`ClassVariable` leaves `_properties` empty), so the `props`
suffix is spelled out only for methods. -/
def Member.render : Member → String
  | .var v =>
    memberPropMap v.scope ++ (if v.static then "{static} " else "") ++
      v.name ++ (if v.vtype ≠ "" then " : " ++ v.vtype else "")
  | .meth m =>
    memberPropMap m.scope ++ (if m.static then "{static} " else "") ++
      (if m.abstract then "{abstract} " else "") ++
      m.name ++ "(" ++ renderParams m.params ++ ")" ++
      (if m.rtype ≠ "" then " : " ++ m.rtype else "") ++
      (if m.props ≠ [] then " \x7b" ++ String.intercalate ", " m.props ++ "\x7d" else "")
  | .enumVal n => n

/-- `ContainerMember.comparison_keys`: `(type, name)` when the member has a
type, the bare name otherwise.  Within one container the keys are
homogeneous (class members always carry a type, enum values never do), so
padding the enum-value key with an empty first component induces the same
order as Python comparing bare strings. -/
def Member.comparisonKeys : Member → String × String
  | .var v => (v.vtype, v.name)
  | .meth m => (m.rtype, m.name)
  | .enumVal n => ("", n)

structure ClassData where
  containerType : String
  name : String
  members : List Member
  nsp : String
  parent : Option String
  abstract : Bool
  templateType : Option String
  inheritanceList : List String
deriving DecidableEq, Repr

structure EnumData where
  name : String
  members : List Member
  nsp : String
  parent : Option String
deriving DecidableEq, Repr

inductive Entity where
  | cls (c : ClassData)
  | enm (e : EnumData)
deriving DecidableEq, Repr

def Entity.name : Entity → String
  | .cls c => c.name
  | .enm e => e.name

def Entity.nsp : Entity → String
  | .cls c => c.nsp
  | .enm e => e.nsp

def Entity.parent : Entity → Option String
  | .cls c => c.parent
  | .enm e => e.parent

/-- `Container._container_type` (an `Enum` is constructed with type `enum`). -/
def Entity.containerType : Entity → String
  | .cls c => c.containerType
  | .enm _ => "enum"

def Entity.members : Entity → List Member
  | .cls c => c.members
  | .enm e => e.members

/-- The namespace-qualified name used by `_get_class_list`. -/
def Entity.qualName (e : Entity) : String :=
  (if e.nsp ≠ "" then e.nsp ++ "::" else "") ++ e.name

/-- `Container._render_container_def` and its `Class` override: `struct` and
`union` render as `class`; abstract and template markers added for classes. -/
def Entity.renderContainerDef : Entity → String
  | .enm e => "enum " ++ e.name
  | .cls c =>
    let ct := if c.containerType = "struct" || c.containerType = "union" then "class"
              else c.containerType
    let s := ct ++ " " ++ c.name
    let s := if c.abstract then "abstract " ++ s else s
    match c.templateType with
    | some t => s ++ " <" ++ t ++ ">"
    | none => s

/-- `Container.render`. -/
def Entity.render (e : Entity) : String :=
  e.renderContainerDef ++ " \x7b\n" ++
    String.join (e.members.map (fun m => "\t" ++ m.render ++ "\n")) ++ "\x7d\n"

/-! ### Relationship model -/

/-- `LINK_TYPE_MAP`. -/
def linkTypeMap : String → String
  | "inherit" => "<|--"
  | "aggregation" => "o--"
  | "composition" => "*--"
  | "dependency" => "<.."
  | "nesting" => "+--"
  | _ => ""

/-- `ClassRelationship` and its subclasses.  The `count` field belongs to
`ClassAggregationRelationship` (always 1 for the other link types, whose
rendering ignores it). -/
structure ClassRelationship where
  parent : String
  child : String
  linkType : String
  parentNs : String
  childNs : String
  count : Nat
deriving DecidableEq, Repr

/-- `ClassRelationship.__init__`: names and namespaces of both endpoints are
captured at construction. -/
def mkRelationship (linkType : String) (cParent cChild : Entity) (count : Nat) :
    ClassRelationship :=
  { parent := cParent.name, child := cChild.name, linkType := linkType,
    parentNs := cParent.nsp, childNs := cChild.nsp, count := count }

/-- `get_namespace_link_name`. -/
def getNamespaceLinkName (namespaceStr : String) : String :=
  if namespaceStr = "" then ""
  else String.intercalate "." (namespaceStr.splitOn "::")

/-- `ClassRelationship._render_name`. -/
def renderLinkName (className classNamespace : String) : String :=
  if classNamespace ≠ "" then getNamespaceLinkName classNamespace ++ "." ++ className
  else className

/-- `ClassRelationship._render_link_type`, with the
`ClassAggregationRelationship` override (count label, omitted when 1) for
the two link types that class produces. -/
def ClassRelationship.renderLinkType (r : ClassRelationship) : String :=
  if r.linkType = "aggregation" || r.linkType = "composition" then
    (if r.count = 1 then "" else "\"" ++ toString r.count ++ "\" ") ++
      linkTypeMap r.linkType
  else linkTypeMap r.linkType

/-- `ClassRelationship.render`. -/
def ClassRelationship.render (r : ClassRelationship) : String :=
  renderLinkName r.parent r.parentNs ++ " " ++ r.renderLinkType ++ " " ++
    renderLinkName r.child r.childNs ++ "\n"

def ClassRelationship.comparisonKeys (r : ClassRelationship) :
    String × String × String :=
  (r.parent, r.child, r.linkType)

/-! ### Diagram state -/

structure Diagram where
  flagDep : Bool
  templateFile : String
  loaders : List String
  objects : List Entity
  inheritanceList : List ClassRelationship
  aggregationList : List ClassRelationship
  dependencyList : List ClassRelationship
  nestingList : List ClassRelationship
deriving DecidableEq, Repr

/-- `os.path.basename` on the forward-slash paths the tool handles. -/
def basenameOf (p : String) : String := ((p.splitOn "/").getLast?).getD p

/-- `os.path.dirname` on forward-slash paths (absolute-path resolution is a
file-system effect and is not modelled). -/
def dirnameOf (p : String) : String :=
  String.intercalate "/" ((p.splitOn "/").dropLast)

/-- `Diagram.__init__`: the dependency flag, the template file name (base
name of the override, `default.puml` otherwise) and the loader search path
(override directory first, then the built-in package templates) are fixed at
construction; the object and relationship lists start empty (via `clear`). -/
def mkDiagram (templateFile : Option String) (flagDep : Bool) : Diagram :=
  { flagDep := flagDep,
    templateFile := (templateFile.map basenameOf).getD "default.puml",
    loaders := (match templateFile with
                | some t => [dirnameOf t]
                | none => []) ++ ["package:hpp2plantuml/templates"],
    objects := [], inheritanceList := [], aggregationList := [],
    dependencyList := [], nestingList := [] }

/-- `Diagram.clear`. -/
def Diagram.clear (d : Diagram) : Diagram :=
  { d with objects := [], inheritanceList := [], aggregationList := [],
           dependencyList := [], nestingList := [] }

/-! ### Sorting

Python `list.sort(key=...)` is a stable sort by the key tuples; string
tuples compare lexicographically by code point, which is what `String.le`
and `String.lt` compute.  `List.mergeSort` is the stable sort of the Lean
library; a stable sort by a total preorder is unique, so the two agree. -/

def pairLe (a b : String × String) : Bool :=
  decide (a.1 < b.1 ∨ (a.1 = b.1 ∧ a.2 ≤ b.2))

def tripleLe (a b : String × String × String) : Bool :=
  decide (a.1 < b.1 ∨ (a.1 = b.1 ∧
    (a.2.1 < b.2.1 ∨ (a.2.1 = b.2.1 ∧ a.2.2 ≤ b.2.2))))

/-- `Container.sort_members`. -/
def sortMembersList (ms : List Member) : List Member :=
  ms.mergeSort (fun x y => pairLe x.comparisonKeys y.comparisonKeys)

def Entity.sortMembers : Entity → Entity
  | .cls c => .cls { c with members := sortMembersList c.members }
  | .enm e => .enm { e with members := sortMembersList e.members }

/-- `Diagram._sort_list`. -/
def sortRelList (l : List ClassRelationship) : List ClassRelationship :=
  l.mergeSort (fun x y => tripleLe x.comparisonKeys y.comparisonKeys)

/-- `Diagram.sort_elements`: sort the objects by `(container_type, name)`,
then each object's members, then the four relationship lists. -/
def Diagram.sortElements (d : Diagram) : Diagram :=
  { d with
    objects := (d.objects.mergeSort (fun x y =>
        pairLe (x.containerType, x.name) (y.containerType, y.name))).map
        Entity.sortMembers,
    inheritanceList := sortRelList d.inheritanceList,
    aggregationList := sortRelList d.aggregationList,
    dependencyList := sortRelList d.dependencyList,
    nestingList := sortRelList d.nestingList }

/-! ### Relationship inference -/

/-- The plain-name list of `_get_class_list`. -/
def Diagram.classList (d : Diagram) : List String := d.objects.map Entity.name

/-- The qualified-name list of `_get_class_list`. -/
def Diagram.classListNs (d : Diagram) : List String := d.objects.map Entity.qualName

/-- The shared resolution rule: exact match in the plain name list first
(`.index` returns the first hit), then in the qualified list, else nothing. -/
def Diagram.resolveEntity (d : Diagram) (nm : String) : Option Entity :=
  match d.classList.findIdx? (fun x => x = nm) with
  | some i => d.objects.get? i
  | none =>
    match d.classListNs.findIdx? (fun x => x = nm) with
    | some i => d.objects.get? i
    | none => none

/-- `Diagram.build_inheritance_list`: loop over the objects, and for each
class and each base name append one relationship when the base resolves. -/
def Diagram.buildInheritanceList (d : Diagram) : Diagram :=
  { d with inheritanceList :=
      d.objects.foldl (fun acc obj =>
        match obj with
        | .enm _ => acc
        | .cls c =>
          c.inheritanceList.foldl (fun acc2 parent =>
            match d.resolveEntity parent with
            | some parentObj => acc2 ++ [mkRelationship "inherit" parentObj obj 1]
            | none => acc2) acc) [] }

/-- `Diagram.build_nesting_list`: one relationship per object whose `parent`
field is set, non-empty (Python truthiness) and resolvable. -/
def Diagram.buildNestingList (d : Diagram) : Diagram :=
  { d with nestingList :=
      d.objects.foldl (fun acc obj =>
        match obj.parent with
        | some p =>
          if p ≠ "" then
            match d.resolveEntity p with
            | some parentObj => acc ++ [mkRelationship "nesting" parentObj obj 1]
            | none => acc
          else acc
        | none => acc) [] }

/-- `Class.build_variable_type_list`: the types of the variable members. -/
def ClassData.variableTypeList (c : ClassData) : List String :=
  c.members.filterMap (fun m => match m with
    | .var v => some v.vtype
    | _ => none)

/-- Assignment `dct[k] = v` on a Python dict modelled as an association
list: overwrite in place when the key exists, append otherwise. -/
def dictInsert (dct : List (String × List String)) (k : String) (v : List String) :
    List (String × List String) :=
  if dct.any (fun kv => kv.1 = k) then
    dct.map (fun kv => if kv.1 = k then (k, v) else kv)
  else dct ++ [(k, v)]

/-- The `variable_type_list` dict of `build_aggregation_list`. -/
def Diagram.variableTypes (d : Diagram) : List (String × List String) :=
  d.objects.foldl (fun acc obj =>
    match obj with
    | .cls c => dictInsert acc c.name c.variableTypeList
    | .enm _ => acc) []

def dictFind (dct : List (String × List String)) (k : String) :
    Option (List String) :=
  (dct.find? (fun kv => kv.1 = k)).map (fun kv => kv.2)

/-- Inner update of `Diagram._augment_comp`: first entry with matching
(parent, relationship type) has its count incremented; otherwise a fresh
entry with count 1 is appended. -/
def bumpEntry (entries : List (String × String × Nat)) (cParent relType : String) :
    List (String × String × Nat) :=
  match entries with
  | [] => [(cParent, relType, 1)]
  | (p, t, n) :: rest =>
    if p = cParent ∧ t = relType then (p, t, n + 1) :: rest
    else (p, t, n) :: bumpEntry rest cParent relType

/-- `Diagram._augment_comp` on the insertion-ordered dict keyed by the child
(owning) class. -/
def augmentComp (cDict : List (String × List (String × String × Nat)))
    (cParent cChild relType : String) :
    List (String × List (String × String × Nat)) :=
  match cDict with
  | [] => [(cChild, [(cParent, relType, 1)])]
  | (k, entries) :: rest =>
    if k = cChild then (k, bumpEntry entries cParent relType) :: rest
    else (k, entries) :: augmentComp rest cParent cChild relType

/-- The classification of one match in `build_aggregation_list`:
`composition` unless the variable's type contains `parent` immediately
followed by `*`. -/
def aggRelType (parent varType : String) : String :=
  if containsSub (parent ++ "*") varType then "aggregation" else "composition"

/-- First phase of `Diagram.build_aggregation_list`: the accumulation of
counts.  The Python loop header is `for parent in class_list or parent in
class_list_ns`, which evaluates the boolean expression
`class_list or (parent in class_list_ns)`; whenever the loop body is
reachable `class_list` is non-empty (the enclosing loop ranges over it), so
the expression is `class_list` and the candidates are the plain names. -/
def Diagram.aggregationCounts (d : Diagram) :
    List (String × List (String × String × Nat)) :=
  let cl := d.classList
  let vtl := d.variableTypes
  cl.foldl (fun acc childClass =>
    match dictFind vtl childClass with
    | none => acc
    | some varTypes =>
      varTypes.foldl (fun acc2 varType =>
        cl.foldl (fun acc3 parent =>
          if reSearchWordBound parent.data varType.data then
            augmentComp acc3 parent childClass (aggRelType parent varType)
          else acc3) acc2) acc) []

/-- Second phase of `Diagram.build_aggregation_list`: one
`ClassAggregationRelationship(obj_class_obj, comp_parent_obj, count, type)`
per accumulated entry.  In Python an unresolvable name would raise
(`ValueError` from `.index`, or an unbound local); that path is unreachable
because every accumulated key comes from `class_list`, and it is modelled
here as skipping the entry. -/
def Diagram.buildAggregationList (d : Diagram) : Diagram :=
  let cl := d.classList
  let clNs := d.classListNs
  { d with aggregationList :=
      d.aggregationCounts.foldl (fun acc kv =>
        kv.2.foldl (fun acc2 entry =>
          let indices : Option (Nat × Nat) :=
            match cl.findIdx? (fun x => x = kv.1) with
            | some i =>
              (match cl.findIdx? (fun x => x = entry.1) with
               | some j => some (i, j)
               | none => none)
            | none =>
              match clNs.findIdx? (fun x => x = kv.1) with
              | some i =>
                (match clNs.findIdx? (fun x => x = entry.1) with
                 | some j => some (i, j)
                 | none => none)
              | none => none
          match indices with
          | some (i, j) =>
            (match d.objects.get? i, d.objects.get? j with
             | some objClassObj, some compParentObj =>
               acc2 ++ [mkRelationship entry.2.1 objClassObj compParentObj entry.2.2]
             | _, _ => acc2)
          | none => acc2) acc) [] }

/-- `Diagram.build_dependency_list`: for each class, method member and
parameter, the first object (in collection order) whose name matches the
parameter type by `re.search` yields one relationship, unless the parameter
type string equals the owning class's name. -/
def Diagram.buildDependencyList (d : Diagram) : Diagram :=
  let objectsName := d.objects.map Entity.name
  { d with dependencyList :=
      d.objects.foldl (fun acc obj =>
        match obj with
        | .enm _ => acc
        | .cls c =>
          c.members.foldl (fun acc2 member =>
            match member with
            | .meth m =>
              m.params.foldl (fun acc3 param =>
                match objectsName.findIdx? (fun o => substrSearch o.data param.1.data) with
                | some index =>
                  if param.1 ≠ c.name then
                    match d.objects.get? index with
                    | some dependObj => acc3 ++ [mkRelationship "dependency" dependObj obj 1]
                    | none => acc3
                  else acc3
                | none => acc3) acc2
            | _ => acc2) acc) [] }

/-- `Diagram.build_relationship_lists`: dependencies are only built when the
flag is set. -/
def Diagram.buildRelationshipLists (d : Diagram) : Diagram :=
  let d1 := d.buildInheritanceList
  let d2 := d1.buildAggregationList
  let d3 := d2.buildNestingList
  if d3.flagDep then d3.buildDependencyList else d3

/-! ### Parsed declarations (the parser oracle's output)

`CppHeaderParser` is an external oracle; its output is modelled as a tree
of raw declarations carrying exactly the fields the source reads. -/

/-- The chain of enclosing declarations reachable through the parser's
`parent` field; `Container.parse_members` walks it to the outermost one and
reads that one's `namespace`. -/
inductive ParentChain where
  | root (nsp : String)
  | nest (nsp : String) (up : ParentChain)
deriving DecidableEq, Repr

/-- The `while p.get('parent') is not None` walk of `parse_members`. -/
def ParentChain.rootNamespace : ParentChain → String
  | .root nsp => nsp
  | .nest _ up => up.rootNamespace

/-- `Container.parse_members` namespace resolution, returning
(namespace, parent): with a non-empty raw namespace and no parent the
namespace is cleaned; with a parent the entity's parent is the qualified
prefix of its own (already cleaned) name and the namespace is the outermost
ancestor's raw namespace; with an empty raw namespace nothing is set. -/
def resolveNsParent (name : String) (rawNs : String)
    (rawParent : Option ParentChain) : String × Option String :=
  if rawNs ≠ "" then
    match rawParent with
    | none => (cleanupNamespace rawNs, none)
    | some pc => (pc.rootNamespace,
        some (String.intercalate "::" ((name.splitOn "::").dropLast)))
  else ("", none)

structure RawVariable where
  name : String
  vtype : String
  static : Bool
  array : Bool
  deleted : Bool
deriving DecidableEq, Repr

structure RawMethod where
  name : String
  returns : String
  returnsPointer : Bool
  returnsReference : Bool
  pureVirtual : Bool
  destructor : Bool
  constMethod : Bool
  static : Bool
  deleted : Bool
  parameters : List (String × String)
deriving DecidableEq, Repr

structure RawEnum where
  name : Option String
  values : List String
  nsp : String
  rawParent : Option ParentChain
deriving DecidableEq, Repr

structure RawClass where
  declarationMethod : String
  abstract : Bool
  template : Option String
  inherits : List String
  propsPriv : List RawVariable
  propsPub : List RawVariable
  propsProt : List RawVariable
  methsPriv : List RawMethod
  methsPub : List RawMethod
  methsProt : List RawMethod
  enumsPriv : List RawEnum
  enumsPub : List RawEnum
  enumsProt : List RawEnum
  nsp : String
  rawParent : Option ParentChain
deriving DecidableEq, Repr

/-- The declaration tree returned by the oracle for one source unit:
`classes` in dict order, `enums` in parser order. -/
structure ParsedHeader where
  classes : List (String × RawClass)
  enums : List RawEnum
deriving DecidableEq, Repr

/-- `ClassVariable.__init__`: type normalized, `[]` appended for arrays. -/
def mkClassVariable (v : RawVariable) (scope : Scope) : Member :=
  .var { name := v.name,
         vtype := cleanupType v.vtype ++ (if v.array then "[]" else ""),
         scope := scope, static := v.static }

/-- `ClassMethod.__init__`: return type normalized with `*`/`&` suffix,
destructor prefix `~`, `query` property for const methods, parameter types
normalized. -/
def mkClassMethod (m : RawMethod) (scope : Scope) : Member :=
  .meth { name := (if m.destructor then "~" ++ m.name else m.name),
          rtype := cleanupType m.returns ++
            (if m.returnsPointer then "*"
             else if m.returnsReference then "&" else ""),
          scope := scope, static := m.static, abstract := m.pureVirtual,
          props := (if m.constMethod then ["query"] else []),
          params := m.parameters.map (fun p => (cleanupType p.1, p.2)) }

/-- `Class._do_parse_members`: properties then methods, each in
private/public/protected order (the iteration order of `MEMBER_PROP_MAP`),
skipping deleted members. -/
def classMembers (rc : RawClass) : List Member :=
  ((rc.propsPriv.filter (fun v => !v.deleted)).map (fun v => mkClassVariable v .priv)) ++
  ((rc.propsPub.filter (fun v => !v.deleted)).map (fun v => mkClassVariable v .publ)) ++
  ((rc.propsProt.filter (fun v => !v.deleted)).map (fun v => mkClassVariable v .prot)) ++
  ((rc.methsPriv.filter (fun m => !m.deleted)).map (fun m => mkClassMethod m .priv)) ++
  ((rc.methsPub.filter (fun m => !m.deleted)).map (fun m => mkClassMethod m .publ)) ++
  ((rc.methsProt.filter (fun m => !m.deleted)).map (fun m => mkClassMethod m .prot))

/-- `Class.__init__` (via `Container.__init__` and `parse_members`). -/
def mkClass (nm : String) (rc : RawClass) : Entity :=
  let name := cleanName nm
  let nspar := resolveNsParent name rc.nsp rc.rawParent
  .cls { containerType := rc.declarationMethod, name := name,
         members := classMembers rc, nsp := nspar.1, parent := nspar.2,
         abstract := rc.abstract,
         templateType := rc.template.map cleanupSingleLine,
         inheritanceList := rc.inherits.map subAngleAll }

/-- `Enum.__init__`: the name defaults to the literal string `empty` when
the declaration carries none; a truthy `parent` argument overrides the
parent derived from the declaration. -/
def mkEnum (rawE : RawEnum) (parentArg : Option String) : EnumData :=
  let name := cleanName (rawE.name.getD "empty")
  let nspar := resolveNsParent name rawE.nsp rawE.rawParent
  { name := name,
    members := rawE.values.map (fun v => Member.enumVal v),
    nsp := nspar.1,
    parent := (match parentArg with
               | some p => if p ≠ "" then some p else nspar.2
               | none => nspar.2) }

/-- `Diagram.parse_objects` after the oracle has produced the declarations:
classes in order, each immediately followed by its nested enums (in
private/public/protected order, renamed to `Outer::Name` with the outer
entity as parent), then the top-level enums (a `CppEnum` has no `enums`
field, so the nested-enum scan does not apply to them). -/
def Diagram.parseDeclarations (d : Diagram) (ph : ParsedHeader) : Diagram :=
  { d with objects := d.objects ++
      ph.classes.flatMap (fun p =>
        let clsEnt := mkClass p.1 p.2
        clsEnt :: (p.2.enumsPriv ++ p.2.enumsPub ++ p.2.enumsProt).map (fun rawE =>
          let en := mkEnum rawE (some clsEnt.name)
          Entity.enm { en with name := clsEnt.name ++ "::" ++ en.name })) ++
      ph.enums.map (fun rawE => Entity.enm (mkEnum rawE none)) }

/-! ### Ingestion operations

The parser oracle is a parameter: `CppHeaderParser.CppHeader(text, argType)`
becomes `oracle text`, and parsing a file means parsing its content. -/

structure HeaderFile where
  path : String
  content : String
deriving DecidableEq, Repr

/-- `Diagram.parse_objects` for one source unit. -/
def Diagram.parseObjects (oracle : String → ParsedHeader) (d : Diagram)
    (input : String) : Diagram :=
  d.parseDeclarations (oracle input)

/-- `Diagram.create_from_string` (`_build_helper` with reset and list
building). -/
def Diagram.createFromString (oracle : String → ParsedHeader) (d : Diagram)
    (s : String) : Diagram :=
  ((d.clear.parseObjects oracle s).buildRelationshipLists).sortElements

/-- `Diagram.create_from_file`. -/
def Diagram.createFromFile (oracle : String → ParsedHeader) (d : Diagram)
    (f : HeaderFile) : Diagram :=
  ((d.clear.parseObjects oracle f.content).buildRelationshipLists).sortElements

/-- `Diagram.create_from_file_list`. -/
def Diagram.createFromFileList (oracle : String → ParsedHeader) (d : Diagram)
    (files : List HeaderFile) : Diagram :=
  ((files.foldl (fun acc f => acc.parseObjects oracle f.content)
      d.clear).buildRelationshipLists).sortElements

/-- `Diagram.create_from_string_list`. -/
def Diagram.createFromStringList (oracle : String → ParsedHeader) (d : Diagram)
    (ss : List String) : Diagram :=
  ((ss.foldl (fun acc s => acc.parseObjects oracle s)
      d.clear).buildRelationshipLists).sortElements

/-- `Diagram.add_from_file` (parse only: no reset, no list building). -/
def Diagram.addFromFile (oracle : String → ParsedHeader) (d : Diagram)
    (f : HeaderFile) : Diagram :=
  d.parseObjects oracle f.content

/-- `Diagram.add_from_file_list`. -/
def Diagram.addFromFileList (oracle : String → ParsedHeader) (d : Diagram)
    (files : List HeaderFile) : Diagram :=
  files.foldl (fun acc f => acc.addFromFile oracle f) d

/-- `Diagram.add_from_string`. -/
def Diagram.addFromString (oracle : String → ParsedHeader) (d : Diagram)
    (s : String) : Diagram :=
  d.parseObjects oracle s

/-- `Diagram.add_from_string_list`. -/
def Diagram.addFromStringList (oracle : String → ParsedHeader) (d : Diagram)
    (ss : List String) : Diagram :=
  ss.foldl (fun acc s => acc.parseObjects oracle s) d

/-- The public mutating operations of the `Diagram` API (claim C5). -/
inductive DiagOp where
  | createFile (f : HeaderFile)
  | createFileList (fs : List HeaderFile)
  | createString (s : String)
  | createStringList (ss : List String)
  | addFile (f : HeaderFile)
  | addFileList (fs : List HeaderFile)
  | addString (s : String)
  | addStringList (ss : List String)
  | buildRels
  | sortAll
  | clearAll
deriving Repr

def applyOp (oracle : String → ParsedHeader) (d : Diagram) : DiagOp → Diagram
  | .createFile f => d.createFromFile oracle f
  | .createFileList fs => d.createFromFileList oracle fs
  | .createString s => d.createFromString oracle s
  | .createStringList ss => d.createFromStringList oracle ss
  | .addFile f => d.addFromFile oracle f
  | .addFileList fs => d.addFromFileList oracle fs
  | .addString s => d.addFromString oracle s
  | .addStringList ss => d.addFromStringList oracle ss
  | .buildRels => d.buildRelationshipLists
  | .sortAll => d.sortElements
  | .clearAll => d.clear

/-! ### Rendering -/

/-- Python `str.splitlines` for text whose line breaks are `\n` (the only
break the renderers emit): like `splitOn`, without the empty segment after a
trailing newline. -/
def splitLines (s : String) : List String :=
  let parts := s.splitOn "\n"
  if parts.getLast? = some "" then parts.dropLast else parts

/-- `wrap_namespace`: indent every non-empty line by one tab and wrap the
text in a `namespace` block. -/
def wrapNamespace (inputStr namespaceName : String) : String :=
  "namespace " ++ namespaceName ++ " \x7b\n" ++
    String.intercalate "\n" ((splitLines inputStr).map (fun line =>
      if line = "" then line else "\t" ++ line)) ++ "\n\x7d\n"

/-- The last `::`-segment of a namespace (`Namespace.render` block label). -/
def lastSegment (ns : String) : String := ((ns.splitOn "::").getLast?).getD ns

/-- Parent namespace (`'::'.join(parts[:-1])`) of a multi-segment
namespace; a single-segment namespace is top-level. -/
def nsParent (ns : String) : Option String :=
  let parts := ns.splitOn "::"
  if parts.length > 1 then some (String.intercalate "::" parts.dropLast) else none

/-- The namespace list of `Diagram.render`: distinct namespaces in object
order, ancestor prefixes added, duplicates removed, sorted descending by
(segment count, name).  The sort key is injective on the deduplicated list,
so the result does not depend on the iteration order of the intermediate
Python `set`. -/
def Diagram.nsList (d : Diagram) : List String :=
  let nsListIn := d.objects.foldl (fun acc obj =>
    if obj.nsp ≠ "" ∧ obj.nsp ∉ acc then acc ++ [obj.nsp] else acc) []
  let withAncestors := nsListIn.flatMap (fun ns =>
    ns :: ((((List.range ((ns.splitOn "::").length)).filter (fun i => decide (1 ≤ i))).map
      (fun i => String.intercalate "::" ((ns.splitOn "::").take i))).filter
      (fun p => decide (p ∉ nsListIn))))
  withAncestors.dedup.mergeSort (fun a b =>
    decide ((b.splitOn "::").length < (a.splitOn "::").length ∨
      ((b.splitOn "::").length = (a.splitOn "::").length ∧ b ≤ a)))

/-- One namespace node of the render tree: the objects whose namespace is
exactly `ns` (in object order), then the child namespace nodes (in
namespace-list order), each rendered, joined and wrapped — the flat
`ns_obj_map` of `Diagram.render` processed deepest-first produces exactly
this tree.  The fuel bounds the nesting depth (each recursion step moves to
a distinct, strictly deeper element of the namespace list, so
`nsl.length + 1` at the top is never exhausted). -/
def renderNsNode (objs : List Entity) (nsl : List String) : Nat → String → String
  | 0, _ => ""
  | fuel+1, ns =>
    wrapNamespace (String.intercalate "\n"
      ((objs.filter (fun o => o.nsp = ns)).map Entity.render ++
       (nsl.filter (fun c => nsParent c = some ns)).map (renderNsNode objs nsl fuel)))
      (lastSegment ns)

/-- The top-level `objects` argument handed to the template: global-scope
objects in object order, then the top-level namespace nodes in
namespace-list order, each rendered. -/
def Diagram.objectsOutRender (d : Diagram) : List String :=
  let nsl := d.nsList
  (d.objects.filter (fun o => o.nsp = "")).map Entity.render ++
  (nsl.filter (fun ns => nsParent ns = none)).map
    (renderNsNode d.objects nsl (nsl.length + 1))

/-- Modelled from the spec: the built-in template `default.puml` is not
under `src/`.  Per the render-adapter contract it maps the rendered
objects, the four relationship lists and the dependency flag to the final
text; it is modelled as the PlantUML skeleton emitting those pieces in
order (dependencies only when the flag is set). -/
def templateRender (objects : List String) (inh agg dep nst : List String)
    (flagDep : Bool) : String :=
  "@startuml\n\n" ++ String.join objects ++ "\n" ++
    String.join inh ++ "\n" ++ String.join agg ++ "\n" ++
    (if flagDep then String.join dep ++ "\n" else "") ++
    String.join nst ++ "\n@enduml\n"

/-- `Diagram.render`. -/
def Diagram.render (d : Diagram) : String :=
  templateRender d.objectsOutRender
    (d.inheritanceList.map ClassRelationship.render)
    (d.aggregationList.map ClassRelationship.render)
    (d.dependencyList.map ClassRelationship.render)
    (d.nestingList.map ClassRelationship.render)
    d.flagDep

/-- `Diagram.render` as a state transition: the method reads the diagram
and assigns no field. -/
def Diagram.renderStep (d : Diagram) : Diagram × String := (d, d.render)

/-! ### Specification-shaped forms of the relationship builders

These definitions restate the builders the way the claims word them
(one comprehension instead of an accumulating loop); the claim theorems
compare them with the loop-shaped embeddings above. -/

/-- Claim C3's reading of the inheritance builder: exactly one relationship
per (class, base-name occurrence) whose base resolves, nothing otherwise. -/
def Diagram.inheritanceSpec (d : Diagram) : List ClassRelationship :=
  d.objects.flatMap (fun obj =>
    match obj with
    | .enm _ => []
    | .cls c => c.inheritanceList.filterMap (fun parent =>
        (d.resolveEntity parent).map (fun parentObj =>
          mkRelationship "inherit" parentObj obj 1)))

/-- The dependency relationship a single method parameter contributes, per
claim C4's (amended) reading: the source is the first entity in collection
order whose name matches the parameter type by `re.search`, and nothing is
contributed exactly when no name matches or the parameter type string
equals the declaring class's name. -/
def depPick (d : Diagram) (obj : Entity) (c : ClassData)
    (objectsName : List String) (param : String × String) :
    Option ClassRelationship :=
  match objectsName.findIdx? (fun o => substrSearch o.data param.1.data) with
  | some index =>
    if param.1 ≠ c.name then
      (d.objects.get? index).map (fun dependObj =>
        mkRelationship "dependency" dependObj obj 1)
    else none
  | none => none

/-- Claim C4's (amended) reading of the dependency builder: per parameter,
at most one relationship, given by `depPick`. -/
def Diagram.dependencySpec (d : Diagram) : List ClassRelationship :=
  let objectsName := d.objects.map Entity.name
  d.objects.flatMap (fun obj =>
    match obj with
    | .enm _ => []
    | .cls c => c.members.flatMap (fun member =>
        match member with
        | .meth m => m.params.filterMap (depPick d obj c objectsName)
        | _ => []))

/-- The aggregation matches predicted by claim C1's wording for a given
candidate list: for each owning class in the plain name list (with its
recorded variable types), each variable type and each candidate `T` in the
given list, one (T, owner, kind) record exactly when `T` occurs in the
type string as a whole word bounded by non-identifier characters, with kind
`aggregation` when the type contains `T` directly followed by `*`, else
`composition`. -/
def Diagram.aggMatchesClaim (d : Diagram) (candidates : List String) :
    List (String × String × String) :=
  let cl := d.classList
  let vtl := d.variableTypes
  cl.flatMap (fun childClass =>
    match dictFind vtl childClass with
    | none => []
    | some varTypes =>
      varTypes.flatMap (fun varType =>
        candidates.filterMap (fun parent =>
          if boundedWordOccurs parent.data varType.data then
            some (parent, childClass, aggRelType parent varType)
          else none)))

/-- The recorded counts predicted by the claim: the predicted matches folded
through `_augment_comp`. -/
def Diagram.aggCountsClaim (d : Diagram) (candidates : List String) :
    List (String × List (String × String × Nat)) :=
  (d.aggMatchesClaim candidates).foldl
    (fun acc t => augmentComp acc t.1 t.2.1 t.2.2) []

/-- Identifier-shaped names: non-empty, made of word characters and colons,
with word characters at both ends.  Entity names derived from C++
identifiers (possibly `::`-qualified) have this shape; on such patterns the
regex `\b` boundaries coincide with the claims' non-identifier bounds and
`re.search` treats the pattern literally. -/
def identLike (s : String) : Bool :=
  match s.data with
  | [] => false
  | c :: _ =>
    isWordChar c && s.data.all (fun x => isWordChar x || x = ':') &&
      (match s.data.getLast? with
       | some z => isWordChar z
       | none => false)

/-- All entity names of the diagram are identifier-shaped. -/
def Diagram.identLikeNames (d : Diagram) : Prop :=
  ∀ e ∈ d.objects, identLike e.name = true

/-! ### Concrete states for the counterexamples and witnesses -/

/-- Class `A` inside namespace `ns` (no members). -/
def entA : Entity :=
  .cls { containerType := "class", name := "A", members := [], nsp := "ns",
         parent := none, abstract := false, templateType := none,
         inheritanceList := [] }

/-- Class `C` with one member variable of type `ns::A`. -/
def entC : Entity :=
  .cls { containerType := "class", name := "C",
         members := [.var { name := "x", vtype := "ns::A", scope := .priv,
                            static := false }],
         nsp := "", parent := none, abstract := false, templateType := none,
         inheritanceList := [] }

/-- Counterexample state for claim C1: diagram with `ns::A` and `C`. -/
def diagC1 : Diagram := { mkDiagram none false with objects := [entA, entC] }

/-- Class `T` (no members). -/
def entT : Entity :=
  .cls { containerType := "class", name := "T", members := [], nsp := "",
         parent := none, abstract := false, templateType := none,
         inheritanceList := [] }

/-- Class `C` with two member variables of pointer type `T*` and one of
value type `T` (the state after parsing
`class T {}; class C { T* a; T* b; T c; };`). -/
def entC2 : Entity :=
  .cls { containerType := "class", name := "C",
         members := [.var { name := "a", vtype := "T*", scope := .priv, static := false },
                     .var { name := "b", vtype := "T*", scope := .priv, static := false },
                     .var { name := "c", vtype := "T", scope := .priv, static := false }],
         nsp := "", parent := none, abstract := false, templateType := none,
         inheritanceList := [] }

/-- Failing input of claim C2. -/
def diagC2 : Diagram := { mkDiagram none false with objects := [entT, entC2] }

/-- A single class `A` whose method takes a parameter of type `A*`
(a pointer to the declaring class itself). -/
def entA4 : Entity :=
  .cls { containerType := "class", name := "A",
         members := [.meth { name := "f", rtype := "void", scope := .publ,
                             static := false, abstract := false, props := [],
                             params := [("A*", "p")] }],
         nsp := "", parent := none, abstract := false, templateType := none,
         inheritanceList := [] }

/-- Counterexample state for claim C4, with the dependency flag enabled. -/
def diagC4 : Diagram := { mkDiagram none true with objects := [entA4] }

/-- An enum declaration carrying no name field (claim C10). -/
def anonEnum (vals : List String) (nsp : String) (pc : Option ParentChain) : RawEnum :=
  { name := none, values := vals, nsp := nsp, rawParent := pc }

/-! ### Properties of the normalizer scanners -/

/-- The output of whitespace collapsing has no two adjacent whitespace characters. -/
theorem chain'_collapseWs (l : List Char) :
    List.Chain' (fun a b => ¬(isWs a ∧ isWs b)) (collapseWs l) := by
  induction l with
  | nil => simp [collapseWs]
  | cons c rest ih =>
    cases rest with
    | nil => simp [collapseWs]
    | cons d rest' =>
      by_cases h : isWs c && isWs d
      · rw [collapseWs, if_pos h]
        exact ih
      · rw [collapseWs, if_neg h]
        rw [List.chain'_cons']
        refine ⟨?_, ih⟩
        intro b hb
        by_cases hc : isWs c
        · have hd : ¬ isWs d := by
            intro hd
            exact h (by simp [hc, hd])
          have : (collapseWs (d :: rest')).head? = some d := by
            cases rest' with
            | nil => rfl
            | cons e rest'' =>
              rw [collapseWs, if_neg (by simp [hd])]
              rfl
          rw [this] at hb
          cases hb
          exact fun hcd => hd hcd.2
        · exact fun hcd => hc hcd.1

/-- Whitespace collapsing is the identity on lists with no two adjacent
whitespace characters. -/
theorem collapseWs_eq_self {l : List Char}
    (h : List.Chain' (fun a b => ¬(isWs a ∧ isWs b)) l) : collapseWs l = l := by
  induction l with
  | nil => rfl
  | cons c rest ih =>
    cases rest with
    | nil => rfl
    | cons d rest' =>
      have hcd : ¬(isWs c ∧ isWs d) := (List.chain'_cons.mp h).1
      rw [collapseWs, if_neg (by intro hb; exact hcd (by simpa using hb))]
      rw [ih (List.chain'_cons.mp h).2]

/-- In the non-skipping state, `dropAfter` preserves the head of the list. -/
theorem dropAfter_head_false (trig pred : Char → Bool) (l : List Char) :
    (dropAfter trig pred false l).head? = l.head? := by
  cases l with
  | nil => rfl
  | cons c rest =>
    rw [dropAfter]
    rw [if_neg (by simp)]
    split <;> rfl

/-- In the skipping state, the head of the output never satisfies `pred`. -/
theorem dropAfter_head_true (trig pred : Char → Bool) (l : List Char) (c : Char)
    (h : (dropAfter trig pred true l).head? = some c) : pred c = false := by
  induction l with
  | nil => simp [dropAfter] at h
  | cons d rest ih =>
    rw [dropAfter] at h
    by_cases hp : pred d
    · rw [if_pos (by simp [hp])] at h
      exact ih h
    · rw [if_neg (by simp [hp])] at h
      have : c = d := by
        split at h <;> (simp at h; exact h.symm)
      subst this
      simpa using hp

/-- The output of `dropAfter` never has a `pred` character directly after a
`trig` character. -/
theorem chain'_dropAfter (trig pred : Char → Bool) (b : Bool) (l : List Char) :
    List.Chain' (fun a c => ¬(trig a ∧ pred c)) (dropAfter trig pred b l) := by
  induction l generalizing b with
  | nil => simp [dropAfter]
  | cons c rest ih =>
    rw [dropAfter]
    by_cases hsp : b && pred c
    · rw [if_pos hsp]
      exact ih true
    · rw [if_neg hsp]
      by_cases ht : trig c
      · rw [if_pos ht]
        rw [List.chain'_cons']
        refine ⟨?_, ih true⟩
        intro e he
        have := dropAfter_head_true trig pred rest e he
        simp [this]
      · rw [if_neg ht]
        rw [List.chain'_cons']
        refine ⟨?_, ih false⟩
        intro e _
        simp [ht]

/-- `dropAfter` preserves every adjacency invariant `S` that holds of any
pair (`trig` character, non-`pred` character): the only adjacencies it
creates are of that shape. -/
theorem dropAfter_preserve (trig pred : Char → Bool) (S : Char → Char → Prop)
    (hS : ∀ a c, trig a = true → pred c = false → S a c) (b : Bool) (l : List Char)
    (h : List.Chain' S l) : List.Chain' S (dropAfter trig pred b l) := by
  induction l generalizing b with
  | nil => simp [dropAfter]
  | cons c rest ih =>
    have htail : List.Chain' S rest := h.tail
    rw [dropAfter]
    by_cases hsp : b && pred c
    · rw [if_pos hsp]
      exact ih true htail
    · rw [if_neg hsp]
      by_cases ht : trig c
      · rw [if_pos ht]
        rw [List.chain'_cons']
        refine ⟨?_, ih true htail⟩
        intro e he
        exact hS c e ht (dropAfter_head_true trig pred rest e he)
      · rw [if_neg ht]
        rw [List.chain'_cons']
        refine ⟨?_, ih false htail⟩
        intro e he
        rw [dropAfter_head_false] at he
        exact (List.chain'_cons'.mp h).1 e he

/-- `dropAfter` (from the non-skipping state) is the identity on lists where
no `pred` character directly follows a `trig` character. -/
theorem dropAfter_eq_self {trig pred : Char → Bool} {l : List Char}
    (h : List.Chain' (fun a c => ¬(trig a ∧ pred c)) l) :
    dropAfter trig pred false l = l := by
  suffices H : ∀ b, (b = true → ∀ c, l.head? = some c → pred c = false) →
      dropAfter trig pred b l = l from H false (by simp)
  induction l with
  | nil => intro b _; rfl
  | cons c rest ih =>
    intro b hb
    rw [dropAfter]
    have hpc : (b && pred c) = false := by
      cases b with
      | false => rfl
      | true => simp [hb rfl c rfl]
    rw [if_neg (by simp [hpc])]
    have htail := h.tail
    by_cases ht : trig c
    · rw [if_pos ht]
      have hhead : ∀ e, rest.head? = some e → pred e = false := by
        intro e he
        cases rest with
        | nil => simp at he
        | cons d rest' =>
          have := (List.chain'_cons.mp h).1
          simp at he
          subst he
          by_contra hp
          exact this ⟨ht, by simpa using hp⟩
      rw [ih htail true (fun _ => hhead)]
    · rw [if_neg ht]
      rw [ih htail false (by simp)]

/-- Pointer characters are not whitespace. -/
theorem ptr_not_ws {a : Char} (h : isPtrChar a = true) : isWs a = false := by
  have : a = '*' ∨ a = '&' := by simpa [isPtrChar] using h
  rcases this with rfl | rfl <;> rfl

/-- Bracket characters are not whitespace. -/
theorem bracket_not_ws {a : Char} (h : isBracketChar a = true) : isWs a = false := by
  have : a = '<' ∨ a = '>' := by simpa [isBracketChar] using h
  rcases this with rfl | rfl <;> rfl

/-- Bracket characters are not the space character. -/
theorem bracket_not_space {a : Char} (h : isBracketChar a = true) : a ≠ ' ' := by
  have : a = '<' ∨ a = '>' := by simpa [isBracketChar] using h
  rcases this with rfl | rfl <;> decide

/-- Bracket characters are not pointer characters. -/
theorem bracket_not_ptr {a : Char} (h : isBracketChar a = true) : isPtrChar a = false := by
  have : a = '<' ∨ a = '>' := by simpa [isBracketChar] using h
  rcases this with rfl | rfl <;> rfl

/-- Whitespace characters are never ruled in by `isWs a = false`:
the space character is whitespace. -/
theorem space_is_ws : isWs ' ' = true := rfl

/-- The four adjacency invariants of normalized type strings: no two adjacent
whitespace characters; no space directly before `*` or `&`; no whitespace
directly after `<` or `>`; no whitespace directly before `<` or `>`. -/
theorem cleanupTypeL_chains (l : List Char) :
    List.Chain' (fun a b => ¬(isWs a ∧ isWs b)) (cleanupTypeL l) ∧
    List.Chain' (fun a b => ¬(a = ' ' ∧ isPtrChar b)) (cleanupTypeL l) ∧
    List.Chain' (fun a b => ¬(isBracketChar a ∧ isWs b)) (cleanupTypeL l) ∧
    List.Chain' (fun a b => ¬(isWs a ∧ isBracketChar b)) (cleanupTypeL l) := by
  set m1 := collapseWs l with hm1
  have H1m1 : List.Chain' (fun a b => ¬(isWs a ∧ isWs b)) m1 := chain'_collapseWs l
  -- stage 2
  set m2 := stripSpaceBeforePtr m1 with hm2
  have H1m2 : List.Chain' (fun a b => ¬(isWs a ∧ isWs b)) m2 := by
    rw [hm2, stripSpaceBeforePtr, List.chain'_reverse]
    refine dropAfter_preserve _ _ _ (fun a c ha hc => ?_) false m1.reverse ?_
    · exact fun hac => by rw [ptr_not_ws ha] at hac; exact absurd hac.2 (by simp)
    · rw [List.chain'_reverse]
      exact H1m1
  have H2m2 : List.Chain' (fun a b => ¬(a = ' ' ∧ isPtrChar b)) m2 := by
    have := chain'_dropAfter isPtrChar (fun c => c = ' ') false m1.reverse
    rw [hm2, stripSpaceBeforePtr, List.chain'_reverse]
    exact this.imp (fun a b hab => fun h => hab ⟨h.2, by simpa using h.1⟩)
  -- stage 3, forward pass
  set m3 := dropAfter isBracketChar isWs false m2 with hm3
  have H1m3 : List.Chain' (fun a b => ¬(isWs a ∧ isWs b)) m3 :=
    dropAfter_preserve _ _ _
      (fun a c ha _ => fun hac => by rw [bracket_not_ws ha] at hac; exact absurd hac.1 (by simp))
      false m2 H1m2
  have H2m3 : List.Chain' (fun a b => ¬(a = ' ' ∧ isPtrChar b)) m3 :=
    dropAfter_preserve _ _ _
      (fun a c ha _ => fun hac => bracket_not_space ha hac.1)
      false m2 H2m2
  have H3m3 : List.Chain' (fun a b => ¬(isBracketChar a ∧ isWs b)) m3 :=
    chain'_dropAfter _ _ false m2
  -- stage 3, reversed pass
  have hout : cleanupTypeL l =
      (dropAfter isBracketChar isWs false m3.reverse).reverse := by
    rw [cleanupTypeL, stripWsAroundBrackets, ← hm1, ← hm2, ← hm3]
  constructor
  · rw [hout, List.chain'_reverse]
    refine dropAfter_preserve _ _ _ (fun a c ha _ => ?_) false m3.reverse ?_
    · exact fun hac => by rw [bracket_not_ws ha] at hac; exact absurd hac.2 (by simp)
    · rw [List.chain'_reverse]
      exact H1m3
  constructor
  · rw [hout, List.chain'_reverse]
    refine dropAfter_preserve _ _ _ (fun a c ha _ => ?_) false m3.reverse ?_
    · exact fun hac => by rw [bracket_not_ptr ha] at hac; exact absurd hac.2 (by simp)
    · rw [List.chain'_reverse]
      exact H2m3
  constructor
  · rw [hout, List.chain'_reverse]
    refine dropAfter_preserve _ _ _ (fun a c ha hc => ?_) false m3.reverse ?_
    · exact fun hac => by rw [bracket_not_ws ha] at hac; exact absurd hac.2 (by simp)
    · rw [List.chain'_reverse]
      exact H3m3
  · rw [hout, List.chain'_reverse]
    have := chain'_dropAfter isBracketChar isWs false m3.reverse
    exact this.imp (fun a b hab => fun h => hab ⟨h.2, h.1⟩)

/-- The normalizer pipeline is the identity on its own output. -/
theorem cleanupTypeL_idem (l : List Char) :
    cleanupTypeL (cleanupTypeL l) = cleanupTypeL l := by
  obtain ⟨H1, H2, H3, H4⟩ := cleanupTypeL_chains l
  have hc : collapseWs (cleanupTypeL l) = cleanupTypeL l := collapseWs_eq_self H1
  have hs : stripSpaceBeforePtr (cleanupTypeL l) = cleanupTypeL l := by
    rw [stripSpaceBeforePtr, dropAfter_eq_self, List.reverse_reverse]
    rw [List.chain'_reverse]
    exact H2.imp (fun a b hab => fun h => hab ⟨by simpa using h.2, h.1⟩)
  have hb : stripWsAroundBrackets (cleanupTypeL l) = cleanupTypeL l := by
    rw [stripWsAroundBrackets, dropAfter_eq_self H3, dropAfter_eq_self,
      List.reverse_reverse]
    rw [List.chain'_reverse]
    exact H4.imp (fun a b hab => fun h => hab ⟨h.2, h.1⟩)
  show stripWsAroundBrackets (stripSpaceBeforePtr (collapseWs (cleanupTypeL l)))
      = cleanupTypeL l
  rw [hc, hs, hb]

/-- **C8**: For every input string s, the type normalizer is idempotent —
`normalizeType(normalizeType(s))` equals `normalizeType(s)` — and its output
has every whitespace run collapsed to a single character (no two adjacent
whitespace characters), no space immediately before `*` or `&`, and no
whitespace adjacent to `<` or `>` (on either side). -/
theorem claim_C8 (s : String) :
    cleanupType (cleanupType s) = cleanupType s ∧
    List.Chain' (fun a b => ¬(isWs a ∧ isWs b)) (cleanupType s).data ∧
    List.Chain' (fun a b => ¬(a = ' ' ∧ isPtrChar b)) (cleanupType s).data ∧
    List.Chain' (fun a b => ¬(isWs a ∧ isBracketChar b)) (cleanupType s).data ∧
    List.Chain' (fun a b => ¬(isBracketChar a ∧ isWs b)) (cleanupType s).data := by
  obtain ⟨H1, H2, H3, H4⟩ := cleanupTypeL_chains s.data
  have hdata : (cleanupType s).data = cleanupTypeL s.data := rfl
  refine ⟨?_, ?_, ?_, ?_, ?_⟩
  · show (⟨cleanupTypeL (cleanupType s).data⟩ : String) = ⟨cleanupTypeL s.data⟩
    rw [hdata, cleanupTypeL_idem]
  · rw [hdata]; exact H1
  · rw [hdata]; exact H2
  · rw [hdata]; exact H4
  · rw [hdata]; exact H3

/-! ### Loop/comprehension correspondence lemmas -/

/-- An appending left fold is a flat map. -/
theorem foldl_append_flatMap {α β : Type} (g : α → List β) :
    ∀ (l : List α) (init : List β),
      l.foldl (fun acc x => acc ++ g x) init = init ++ l.flatMap g := by
  intro l
  induction l with
  | nil => intro init; simp
  | cons x rest ih =>
    intro init
    simp only [List.foldl_cons, List.flatMap_cons, ih, List.append_assoc]

/-- A fold over a flat map is the nested fold. -/
theorem foldl_flatMap {α β γ : Type} (f : γ → β → γ) (g : α → List β) :
    ∀ (l : List α) (init : γ),
      (l.flatMap g).foldl f init = l.foldl (fun acc x => (g x).foldl f acc) init := by
  intro l
  induction l with
  | nil => intro init; rfl
  | cons x rest ih =>
    intro init
    simp only [List.flatMap_cons, List.foldl_append, List.foldl_cons, ih]

/-- A fold over a `filterMap` is the fold that skips the `none` elements. -/
theorem foldl_filterMap {α β γ : Type} (f : γ → β → γ) (h : α → Option β) :
    ∀ (l : List α) (init : γ),
      (l.filterMap h).foldl f init =
        l.foldl (fun acc x => match h x with
          | some y => f acc y
          | none => acc) init := by
  intro l
  induction l with
  | nil => intro init; rfl
  | cons x rest ih =>
    intro init
    cases hx : h x <;> simp [List.filterMap_cons, hx, ih]

/-- Inner loop of the inheritance builder as a `filterMap`. -/
theorem inheritance_inner (d : Diagram) (obj : Entity) :
    ∀ (bases : List String) (init : List ClassRelationship),
      bases.foldl (fun acc2 parent =>
        match d.resolveEntity parent with
        | some parentObj => acc2 ++ [mkRelationship "inherit" parentObj obj 1]
        | none => acc2) init
      = init ++ bases.filterMap (fun parent =>
          (d.resolveEntity parent).map (fun parentObj =>
            mkRelationship "inherit" parentObj obj 1)) := by
  intro bases
  induction bases with
  | nil => intro init; simp
  | cons p rest ih =>
    intro init
    cases hp : d.resolveEntity p <;>
      simp [List.filterMap_cons, hp, ih, List.append_assoc]

/-- **C3**: For every `ClassEntity` and every name in its base-class list,
`buildInheritanceList` emits exactly one `Inheritance(base, derived)`
relationship when the base name resolves to an entity of the diagram (plain
names first, then qualified names), and emits nothing — raising no error —
when it does not: the built list is exactly the per-(class, base-occurrence)
comprehension `inheritanceSpec`, in which each resolvable base occurrence
contributes one relationship and each unresolvable one contributes none
(the Lean builder is a total function, so no error is possible). -/
theorem claim_C3 (d : Diagram) :
    (d.buildInheritanceList).inheritanceList = d.inheritanceSpec := by
  show d.objects.foldl _ [] = _
  rw [Diagram.inheritanceSpec]
  suffices H : ∀ (objs : List Entity) (init : List ClassRelationship),
      objs.foldl (fun acc obj =>
        match obj with
        | .enm _ => acc
        | .cls c =>
          c.inheritanceList.foldl (fun acc2 parent =>
            match d.resolveEntity parent with
            | some parentObj => acc2 ++ [mkRelationship "inherit" parentObj obj 1]
            | none => acc2) acc) init
      = init ++ objs.flatMap (fun obj =>
          match obj with
          | .enm _ => []
          | .cls c => c.inheritanceList.filterMap (fun parent =>
              (d.resolveEntity parent).map (fun parentObj =>
                mkRelationship "inherit" parentObj obj 1))) by
    simpa using H d.objects []
  intro objs
  induction objs with
  | nil => intro init; simp
  | cons obj rest ih =>
    intro init
    cases obj with
    | enm e => simp [ih]
    | cls c =>
      simp only [List.foldl_cons, List.flatMap_cons]
      rw [inheritance_inner, ih, List.append_assoc]

/-- A fold appending per-element optional contributions is a `filterMap`. -/
theorem foldl_optAppend {α β : Type} (pick : α → Option β) :
    ∀ (l : List α) (init : List β),
      l.foldl (fun acc x => acc ++ (pick x).toList) init = init ++ l.filterMap pick := by
  intro l
  induction l with
  | nil => intro init; simp
  | cons x rest ih =>
    intro init
    cases hx : pick x <;>
      simp [List.filterMap_cons, hx, ih, List.append_assoc]

/-- Parameter loop of the dependency builder: its step function appends the
`depPick` contribution. -/
theorem dependency_params (d : Diagram) (obj : Entity) (c : ClassData)
    (objectsName : List String) (params : List (String × String))
    (init : List ClassRelationship) :
    params.foldl (fun acc3 param =>
      match objectsName.findIdx? (fun o => substrSearch o.data param.1.data) with
      | some index =>
        if param.1 ≠ c.name then
          match d.objects.get? index with
          | some dependObj => acc3 ++ [mkRelationship "dependency" dependObj obj 1]
          | none => acc3
        else acc3
      | none => acc3) init
    = init ++ params.filterMap (depPick d obj c objectsName) := by
  have hfun : (fun (acc3 : List ClassRelationship) (param : String × String) =>
      match objectsName.findIdx? (fun o => substrSearch o.data param.1.data) with
      | some index =>
        if param.1 ≠ c.name then
          match d.objects.get? index with
          | some dependObj => acc3 ++ [mkRelationship "dependency" dependObj obj 1]
          | none => acc3
        else acc3
      | none => acc3) =
      (fun acc3 param => acc3 ++ (depPick d obj c objectsName param).toList) := by
    funext acc param
    rw [depPick]
    cases hidx : objectsName.findIdx? (fun o => substrSearch o.data param.1.data) with
    | none => simp
    | some index =>
      by_cases hne : param.1 ≠ c.name
      · simp only [if_pos hne]
        cases hobj : d.objects.get? index with
        | none => simp
        | some dependObj => simp
      · simp only [if_neg hne]
        simp
  rw [hfun, foldl_optAppend]

/-- The per-member contribution of the dependency builder. -/
theorem dependency_members (d : Diagram) (obj : Entity) (c : ClassData)
    (objectsName : List String) (members : List Member)
    (init : List ClassRelationship) :
    members.foldl (fun acc2 member =>
      match member with
      | .meth m =>
        m.params.foldl (fun acc3 param =>
          match objectsName.findIdx? (fun o => substrSearch o.data param.1.data) with
          | some index =>
            if param.1 ≠ c.name then
              match d.objects.get? index with
              | some dependObj => acc3 ++ [mkRelationship "dependency" dependObj obj 1]
              | none => acc3
            else acc3
          | none => acc3) acc2
      | _ => acc2) init
    = init ++ members.flatMap (fun member =>
        match member with
        | .meth m => m.params.filterMap (depPick d obj c objectsName)
        | _ => []) := by
  have hfun : (fun (acc2 : List ClassRelationship) (member : Member) =>
      match member with
      | .meth m =>
        m.params.foldl (fun acc3 param =>
          match objectsName.findIdx? (fun o => substrSearch o.data param.1.data) with
          | some index =>
            if param.1 ≠ c.name then
              match d.objects.get? index with
              | some dependObj => acc3 ++ [mkRelationship "dependency" dependObj obj 1]
              | none => acc3
            else acc3
          | none => acc3) acc2
      | _ => acc2) =
      (fun acc2 member => acc2 ++ (match member with
        | Member.meth m => m.params.filterMap (depPick d obj c objectsName)
        | _ => [])) := by
    funext acc member
    cases member with
    | var v => simp
    | enumVal n => simp
    | meth m => exact dependency_params d obj c objectsName m.params acc
  rw [hfun, foldl_append_flatMap]

/-- **C4** (amended): When the dependency flag is enabled,
`buildDependencyList` emits, per method parameter, at most one relationship,
whose source is the first entity in collection order whose name matches the
parameter's type text by regex search; the relationship is suppressed
exactly when the parameter's type string equals the declaring class's name
(not whenever the type merely refers to that class): the built list is
exactly the per-parameter comprehension `dependencySpec`. -/
theorem claim_C4 (d : Diagram) :
    (d.buildDependencyList).dependencyList = d.dependencySpec := by
  show d.objects.foldl _ [] = _
  rw [Diagram.dependencySpec]
  have hfun : (fun (acc : List ClassRelationship) (obj : Entity) =>
      match obj with
      | .enm _ => acc
      | .cls c =>
        c.members.foldl (fun acc2 member =>
          match member with
          | .meth m =>
            m.params.foldl (fun acc3 param =>
              match (d.objects.map Entity.name).findIdx?
                  (fun o => substrSearch o.data param.1.data) with
              | some index =>
                if param.1 ≠ c.name then
                  match d.objects.get? index with
                  | some dependObj => acc3 ++ [mkRelationship "dependency" dependObj obj 1]
                  | none => acc3
                else acc3
              | none => acc3) acc2
          | _ => acc2) acc) =
      (fun acc obj => acc ++ (match obj with
        | Entity.enm _ => []
        | Entity.cls c => c.members.flatMap (fun member =>
            match member with
            | Member.meth m => m.params.filterMap
                (depPick d obj c (d.objects.map Entity.name))
            | _ => []))) := by
    funext acc obj
    cases obj with
    | enm e => simp
    | cls c => exact dependency_members d (.cls c) c (d.objects.map Entity.name) c.members acc
  rw [hfun, foldl_append_flatMap]
  rfl

/-- **C4** counterexample to the claim as stated: in `diagC4` the single
method parameter of class `A` has type `A*`, which refers to the declaring
class itself — its name matches the type text under the builder's own
search — yet a dependency relationship from `A` to `A` is emitted.  The
code only suppresses the exact string match `param type = class name`, not
every self-referential parameter. -/
theorem claim_C4_counterexample :
    substrSearch "A".data "A*".data = true ∧
    (diagC4.buildDependencyList).dependencyList =
      [{ parent := "A", child := "A", linkType := "dependency",
         parentNs := "", childNs := "", count := 1 }] := by
  constructor
  · decide
  · decide

/-- **C2**: evaluation at the failing input
`class T {}; class C { T* a; T* b; T c; };` (state `diagC2`).  The builder
emits TWO relationships — one `aggregation` with count 2 (the two pointer
variables) and one `composition` with count 1 (the value variable),
rendering `C "2" o-- T` and `C *-- T` — not the single Aggregation
relationship with count 3 and label `"3"` that the claim (and the
repository's own test, which expects `A "2" o-- B` for one pointer plus one
value member) describes.  The rendering rule itself is as claimed: the
count-2 edge carries the `"2" ` label and the count-1 edge none. -/
theorem claim_C2 :
    (diagC2.buildAggregationList).aggregationList =
      [{ parent := "C", child := "T", linkType := "aggregation",
         parentNs := "", childNs := "", count := 2 },
       { parent := "C", child := "T", linkType := "composition",
         parentNs := "", childNs := "", count := 1 }] ∧
    ((diagC2.buildAggregationList).aggregationList).map ClassRelationship.render
      = ["C \"2\" o-- T\n", "C *-- T\n"] := by
  constructor
  · decide
  · decide

/-- **C9**: `clear` resets exactly the entity collection and the four
relationship lists to empty and changes nothing else — the dependency
flag, the template file name and the loader environment chosen at
construction are untouched, so a reused `Diagram` keeps its
configuration. -/
theorem claim_C9 (d : Diagram) :
    (d.clear).objects = [] ∧ (d.clear).inheritanceList = [] ∧
    (d.clear).aggregationList = [] ∧ (d.clear).dependencyList = [] ∧
    (d.clear).nestingList = [] ∧
    (d.clear).flagDep = d.flagDep ∧
    (d.clear).templateFile = d.templateFile ∧
    (d.clear).loaders = d.loaders :=
  ⟨rfl, rfl, rfl, rfl, rfl, rfl, rfl, rfl⟩

/-- **C7**: after `sort_elements`, two successive `render` calls with no
mutation in between produce byte-identical output: `render` reads the
diagram and assigns no field (modelled by `renderStep` returning the state
unchanged), so the second call runs on the same state and yields the same
string. -/
theorem claim_C7 (d : Diagram) :
    ((d.sortElements).renderStep).2 = (((d.sortElements).renderStep).1.renderStep).2 :=
  rfl

/-! ### Claim C5: the dependency list stays empty with the flag disabled -/

/-- `build_relationship_lists` never changes the dependency flag. -/
theorem buildRels_flag (d : Diagram) :
    (d.buildRelationshipLists).flagDep = d.flagDep := by
  simp only [Diagram.buildRelationshipLists]
  split
  · rfl
  · rfl

/-- With the flag disabled, `build_relationship_lists` leaves the
dependency list untouched (the dependency builder is skipped, and the other
three builders write only their own list). -/
theorem buildRels_dep_of_flag_false (d : Diagram) (hf : d.flagDep = false) :
    (d.buildRelationshipLists).dependencyList = d.dependencyList := by
  simp only [Diagram.buildRelationshipLists]
  split
  · next h =>
    have h' : d.flagDep = true := h
    rw [hf] at h'
    exact absurd h' (by simp)
  · rfl

/-- A fold whose step preserves the flag and the dependency list preserves
both. -/
theorem foldl_preserves_dep {α : Type} (f : Diagram → α → Diagram)
    (hf : ∀ d x, (f d x).flagDep = d.flagDep ∧ (f d x).dependencyList = d.dependencyList) :
    ∀ (l : List α) (d : Diagram),
      (l.foldl f d).flagDep = d.flagDep ∧
      (l.foldl f d).dependencyList = d.dependencyList := by
  intro l
  induction l with
  | nil => intro d; exact ⟨rfl, rfl⟩
  | cons x rest ih =>
    intro d
    have h1 := hf d x
    have h2 := ih (f d x)
    exact ⟨h2.1.trans h1.1, h2.2.trans h1.2⟩

/-- After building and sorting on a flag-disabled state with an empty
dependency list, both properties still hold. -/
theorem buildSort_dep (e : Diagram) (hf : e.flagDep = false)
    (hd : e.dependencyList = []) :
    ((e.buildRelationshipLists).sortElements).flagDep = false ∧
    ((e.buildRelationshipLists).sortElements).dependencyList = [] := by
  have h1 : (e.buildRelationshipLists).flagDep = false := (buildRels_flag e).trans hf
  have h2 : (e.buildRelationshipLists).dependencyList = [] :=
    (buildRels_dep_of_flag_false e hf).trans hd
  refine ⟨h1, ?_⟩
  show sortRelList (e.buildRelationshipLists).dependencyList = []
  rw [h2]
  simp [sortRelList]

/-- Every public `Diagram` operation preserves a disabled flag and an empty
dependency list. -/
theorem applyOp_invariant (oracle : String → ParsedHeader) (d : Diagram)
    (op : DiagOp) (hf : d.flagDep = false) (hd : d.dependencyList = []) :
    (applyOp oracle d op).flagDep = false ∧
    (applyOp oracle d op).dependencyList = [] := by
  have hparse : ∀ (e : Diagram) (s : String),
      (e.parseObjects oracle s).flagDep = e.flagDep ∧
      (e.parseObjects oracle s).dependencyList = e.dependencyList :=
    fun e s => ⟨rfl, rfl⟩
  cases op with
  | createFile f =>
    exact buildSort_dep _ ((hparse _ _).1.trans hf) ((hparse _ _).2.trans rfl)
  | createFileList fs =>
    have h := foldl_preserves_dep (fun acc f => acc.parseObjects oracle f.content)
      (fun e f => hparse e f.content) fs d.clear
    exact buildSort_dep _ (h.1.trans hf) (h.2.trans rfl)
  | createString s =>
    exact buildSort_dep _ ((hparse _ _).1.trans hf) ((hparse _ _).2.trans rfl)
  | createStringList ss =>
    have h := foldl_preserves_dep (fun acc s => acc.parseObjects oracle s)
      (fun e s => hparse e s) ss d.clear
    exact buildSort_dep _ (h.1.trans hf) (h.2.trans rfl)
  | addFile f => exact ⟨hf, hd⟩
  | addFileList fs =>
    have h := foldl_preserves_dep (fun acc f => acc.addFromFile oracle f)
      (fun e f => hparse e f.content) fs d
    exact ⟨h.1.trans hf, h.2.trans hd⟩
  | addString s => exact ⟨hf, hd⟩
  | addStringList ss =>
    have h := foldl_preserves_dep (fun acc s => acc.parseObjects oracle s)
      (fun e s => hparse e s) ss d
    exact ⟨h.1.trans hf, h.2.trans hd⟩
  | buildRels =>
    exact ⟨(buildRels_flag d).trans hf, (buildRels_dep_of_flag_false d hf).trans hd⟩
  | sortAll =>
    refine ⟨hf, ?_⟩
    show sortRelList d.dependencyList = []
    rw [hd]
    simp [sortRelList]
  | clearAll => exact ⟨hf, rfl⟩

/-- **C5**: a `Diagram` constructed with the dependency flag disabled keeps
an empty dependency relationship list under every sequence of ingestion,
relationship-building, sorting and clearing operations, whatever the parsed
input. -/
theorem claim_C5 (oracle : String → ParsedHeader) (tf : Option String)
    (ops : List DiagOp) :
    (ops.foldl (applyOp oracle) (mkDiagram tf false)).dependencyList = [] := by
  suffices H : ∀ d : Diagram, d.flagDep = false → d.dependencyList = [] →
      (ops.foldl (applyOp oracle) d).flagDep = false ∧
      (ops.foldl (applyOp oracle) d).dependencyList = [] from
    (H (mkDiagram tf false) rfl rfl).2
  induction ops with
  | nil => intro d hf hd; exact ⟨hf, hd⟩
  | cons op rest ih =>
    intro d hf hd
    obtain ⟨h1, h2⟩ := applyOp_invariant oracle d op hf hd
    exact ih _ h1 h2

/-- **C6**: over any list of header sources and any parser oracle, the three
ingestion paths — `create_from_file_list` on the files, sequential
`add_from_file` per file followed by explicit `build_relationship_lists()`
and `sort_elements()`, and `create_from_string_list` on the same files'
contents — leave a freshly constructed `Diagram` in identical states, so
the three rendered outputs are identical text. -/
theorem claim_C6 (oracle : String → ParsedHeader) (tf : Option String)
    (fd : Bool) (files : List HeaderFile) :
    ((mkDiagram tf fd).createFromFileList oracle files).render =
      (((files.foldl (fun acc f => acc.addFromFile oracle f)
          (mkDiagram tf fd)).buildRelationshipLists).sortElements).render ∧
    ((mkDiagram tf fd).createFromFileList oracle files).render =
      ((mkDiagram tf fd).createFromStringList oracle
        (files.map (fun f => f.content))).render := by
  have hclear : (mkDiagram tf fd).clear = mkDiagram tf fd := rfl
  have h1 : (mkDiagram tf fd).createFromFileList oracle files =
      (((files.foldl (fun acc f => acc.addFromFile oracle f)
        (mkDiagram tf fd)).buildRelationshipLists).sortElements) := by
    rw [Diagram.createFromFileList, hclear]
    rfl
  have h2 : (mkDiagram tf fd).createFromFileList oracle files =
      (mkDiagram tf fd).createFromStringList oracle (files.map (fun f => f.content)) := by
    rw [Diagram.createFromFileList, Diagram.createFromStringList, List.foldl_map]
  exact ⟨by rw [h1], by rw [h2]⟩

/-- **C10**: an enum declaration carrying no name field produces an entity
whose name is the literal string `empty`; ingestion appends it to the
diagram's objects, and it renders with header line `enum empty`. -/
theorem claim_C10 (vals : List String) (nsp : String) (pc : Option ParentChain)
    (d : Diagram) :
    (mkEnum (anonEnum vals nsp pc) none).name = "empty" ∧
    (∃ rest, (Entity.enm (mkEnum (anonEnum vals nsp pc) none)).render
      = "enum empty \x7b\n" ++ rest) ∧
    (d.parseDeclarations { classes := [], enums := [anonEnum vals nsp pc] }).objects
      = d.objects ++ [Entity.enm (mkEnum (anonEnum vals nsp pc) none)] := by
  have hname : (mkEnum (anonEnum vals nsp pc) none).name = "empty" := by
    show cleanName "empty" = "empty"
    decide
  refine ⟨hname, ?_, ?_⟩
  · refine ⟨String.join ((vals.map (fun v => Member.enumVal v)).map
        (fun m => "\t" ++ m.render ++ "\n")) ++ "\x7d\n", ?_⟩
    show ((("enum " ++ (mkEnum (anonEnum vals nsp pc) none).name) ++ " \x7b\n") ++
        String.join ((vals.map (fun v => Member.enumVal v)).map
          (fun m => "\t" ++ m.render ++ "\n"))) ++ "\x7d\n" = _
    rw [hname, String.append_assoc]
    rfl
  · simp [Diagram.parseDeclarations]

/-! ### Claim C1: candidate names in the aggregation builder -/

/-- Characters of a matched pattern occurrence read back from the string. -/
theorem matchesAt_get (t s : List Char) (i j : Nat) (hm : matchesAt t s i = true)
    (hj : j < t.length) : s.get? (i + j) = t.get? j := by
  have heq : (s.drop i).take t.length = t := by simpa [matchesAt] using hm
  calc s.get? (i + j) = (s.drop i).get? j := (List.get?_drop s i j).symm
    _ = ((s.drop i).take t.length).get? j := (List.get?_take hj).symm
    _ = t.get? j := by rw [heq]

/-- On a pattern that starts and ends with word characters (as
identifier-shaped entity names do), the regex `\b` word-boundary search
coincides with the claims' notion of a whole-word occurrence bounded by
non-identifier characters. -/
theorem reSearch_eq_boundedOccurs (p : String) (hp : identLike p = true)
    (s : List Char) : reSearchWordBound p.data s = boundedWordOccurs p.data s := by
  have hpt : ∃ c rest, p.data = c :: rest ∧ isWordChar c = true ∧
      ∃ z, (p.data).getLast? = some z ∧ isWordChar z = true := by
    rw [identLike] at hp
    cases hd : p.data with
    | nil => rw [hd] at hp; simp at hp
    | cons c rest =>
      rw [hd] at hp
      cases hl : (c :: rest).getLast? with
      | none => simp at hl
      | some z =>
        rw [hl] at hp
        simp only [Bool.and_eq_true] at hp
        exact ⟨c, rest, rfl, hp.1.1, z, rfl, hp.2⟩
  obtain ⟨c, rest, hd, hc, z, hz, hzw⟩ := hpt
  rw [reSearchWordBound, boundedWordOccurs]
  refine congrArg (fun f => (List.range (s.length + 1)).any f) (funext (fun i => ?_))
  cases hm : matchesAt p.data s i with
  | false => simp [hm]
  | true =>
    have htpos : 0 < p.data.length := by rw [hd]; simp
    have hsi : s.get? i = some c := by
      have h0 := matchesAt_get p.data s i 0 hm htpos
      rw [Nat.add_zero] at h0
      rw [h0, hd]
      rfl
    have hwi : wordAt s i = true := by rw [wordAt, hsi]; exact hc
    have hstart : boundaryAt s i = (decide (i = 0) || !wordAt s (i - 1)) := by
      rw [boundaryAt.eq_def, hwi]
      cases i with
      | zero => simp
      | succ j => simp [bne]
    have hlast : p.data.get? (p.data.length - 1) = some z := by
      rw [← List.getLast?_eq_get?]
      exact hz
    have hsk : s.get? (i + p.data.length - 1) = some z := by
      have hk := matchesAt_get p.data s i (p.data.length - 1) hm (by omega)
      have harith : i + (p.data.length - 1) = i + p.data.length - 1 := by omega
      rw [harith] at hk
      rw [hk, hlast]
    have hwk1 : wordAt s (i + p.data.length - 1) = true := by
      rw [wordAt, hsk]
      exact hzw
    have hend : boundaryAt s (i + p.data.length) =
        (decide (i + p.data.length = s.length) || !wordAt s (i + p.data.length)) := by
      obtain ⟨k, hk⟩ : ∃ k, i + p.data.length = k + 1 :=
        ⟨i + p.data.length - 1, by omega⟩
      rw [hk]
      have hwk : wordAt s k = true := by
        have hkk : k = i + p.data.length - 1 := by omega
        rw [hkk]
        exact hwk1
      show (wordAt s (k + 1) != wordAt s k) = _
      rw [hwk]
      by_cases hks : k + 1 = s.length
      · have hnone : wordAt s (k + 1) = false := by
          rw [wordAt.eq_def, hks, List.get?_len_le (Nat.le_refl s.length)]
        rw [hnone]
        simp [hks]
      · simp [hks, bne]
    rw [hstart, hend]

/-- **C1** (amended): in `buildAggregationList` the candidate owned-type
names tried are exactly the names of the *plain* class-name list (the
namespace-qualified list never contributes candidates: the Python loop
header `for parent in class_list or parent in class_list_ns` evaluates to
`class_list` whenever the body is reachable); for identifier-shaped entity
names a record is accumulated exactly for those candidates that occur in
the variable's type string as a whole word bounded by non-identifier
characters, classified as composition by default and as aggregation when
the type string contains the candidate immediately followed by `*`. -/
theorem claim_C1 (d : Diagram) (h : d.identLikeNames) :
    d.aggregationCounts = d.aggCountsClaim d.classList := by
  show (d.objects.map Entity.name).foldl
      (fun acc childClass =>
        match dictFind d.variableTypes childClass with
        | none => acc
        | some varTypes =>
          varTypes.foldl (fun acc2 varType =>
            (d.objects.map Entity.name).foldl (fun acc3 parent =>
              if reSearchWordBound parent.data varType.data then
                augmentComp acc3 parent childClass (aggRelType parent varType)
              else acc3) acc2) acc) []
    = ((d.objects.map Entity.name).flatMap (fun childClass =>
        match dictFind d.variableTypes childClass with
        | none => []
        | some varTypes =>
          varTypes.flatMap (fun varType =>
            (d.objects.map Entity.name).filterMap (fun parent =>
              if boundedWordOccurs parent.data varType.data then
                some (parent, childClass, aggRelType parent varType)
              else none)))).foldl (fun acc t => augmentComp acc t.1 t.2.1 t.2.2) []
  rw [foldl_flatMap]
  refine List.foldl_ext _ _ [] (fun acc childClass _ => ?_)
  cases hvt : dictFind d.variableTypes childClass with
  | none => rfl
  | some vts =>
    rw [foldl_flatMap]
    refine List.foldl_ext _ _ acc (fun a vt _ => ?_)
    rw [foldl_filterMap]
    refine List.foldl_ext _ _ a (fun a2 parentName hmem => ?_)
    have hid : identLike parentName = true := by
      obtain ⟨e, he, rfl⟩ := List.mem_map.mp hmem
      exact h e he
    rw [reSearch_eq_boundedOccurs parentName hid vt.data]
    by_cases hb : boundedWordOccurs parentName.data vt.data
    · rw [if_pos hb, if_pos hb]
    · rw [if_neg hb, if_neg hb]

/-- **C1** counterexample to the claim as stated: on `diagC1` (class `A` in
namespace `ns`, class `C` owning a variable of type `ns::A`), the
qualified name `ns::A` is in the qualified class-name list and occurs in
the variable's type string as a whole word, so the claimed candidate set
(plain and qualified names) would record a second relationship for it; the
code records only the match of the plain name `A`. -/
theorem claim_C1_counterexample :
    ¬ (diagC1.aggregationCounts =
       diagC1.aggCountsClaim (diagC1.classList ++ diagC1.classListNs)) := by
  decide

/-- Witness for the amended claim C1 at the concrete state `diagC2`. -/
theorem claim_C1_witness :
    diagC2.identLikeNames ∧
    diagC2.aggregationCounts = diagC2.aggCountsClaim diagC2.classList :=
  ⟨by unfold Diagram.identLikeNames; decide,
   claim_C1 diagC2 (by unfold Diagram.identLikeNames; decide)⟩
